import Mathlib

/-!
Verification development for the hecs-component-provider code generators.

The Rust source manipulates syn syntax trees.  We shallowly embed the
fragment of the syn data model that the generators inspect (references,
paths with angle-bracketed arguments, tuples), the derive-input shape
(identifier, generic parameters, struct data), and the four generators:

* component_provider.rs : the ComponentProvider derive for Bundle/Query
  structs (module ComponentProviderGen below, names kept from source);
* self_component_provider.rs : the SelfComponentProvider derive
  (namespace SelfComponentProvider);
* default_trait_impl.rs : the default_trait_impl attribute
  (namespace DefaultTraitImpl);
* the gen_tuple_query_component_providers macro from src/lib.rs,
  a token-level muncher with an explicit stack (namespace TupleQuery).

Emitted trait implementations are modelled as ImplDecl values recording
the capability (which trait is implemented), the component target type,
the method return type, and the method body shape.
-/

/-! ## The syn type model (fragment used by the generators) -/

mutual

/-- A Rust type as seen by syn: a reference with optional lifetime and
mutability, a path of segments with optional angle-bracketed arguments,
or a parenthesized tuple type. -/
inductive Ty : Type where
  | reference (lifetime : Option String) (mutability : Bool) (elem : Ty) : Ty
  | path (segments : Segs) : Ty
  | tuple (elems : Tys) : Ty

/-- Spine list of types (tuple elements). -/
inductive Tys : Type where
  | nil : Tys
  | cons (head : Ty) (tail : Tys) : Tys

/-- Spine list of path segments, each an identifier with path arguments. -/
inductive Segs : Type where
  | nil : Segs
  | cons (ident : String) (arguments : PathArgs) (tail : Segs) : Segs

/-- Path arguments of one segment: none, or angle-bracketed. -/
inductive PathArgs : Type where
  | noArgs : PathArgs
  | angle (args : Args) : PathArgs

/-- Spine list of generic arguments. -/
inductive Args : Type where
  | nil : Args
  | cons (head : Arg) (tail : Args) : Args

/-- A generic argument: a lifetime or a type. -/
inductive Arg : Type where
  | lt (name : String) : Arg
  | ty (t : Ty) : Arg

end

deriving instance DecidableEq for Ty
deriving instance DecidableEq for Tys
deriving instance DecidableEq for Segs
deriving instance DecidableEq for PathArgs
deriving instance DecidableEq for Args
deriving instance DecidableEq for Arg

/-! ## Derive input (syn::DeriveInput fragment) -/

/-- A struct member: a named field or a positional index. -/
inductive Member : Type where
  | named (s : String)
  | unnamed (i : Nat)
deriving DecidableEq

/-- The fields of a struct: named, unnamed (tuple struct), or unit. -/
inductive StructFields : Type where
  | named (fs : List (String × Ty))
  | unnamed (ts : List Ty)
  | unit
deriving DecidableEq

/-- The data of a derive input: struct, enum or union. -/
inductive Data : Type where
  | structData (fields : StructFields)
  | enumData
  | unionData
deriving DecidableEq

/-- A generic parameter: lifetime, type or const. -/
inductive GenericParam : Type where
  | lifetimeParam (name : String)
  | typeParam (name : String)
  | constParam (name : String)
deriving DecidableEq

/-- syn::DeriveInput fragment: identifier, generic parameters, data. -/
structure DeriveInput : Type where
  ident : String
  generics : List GenericParam
  data : Data
deriving DecidableEq

/-- generics.lifetimes(): the lifetime parameters, in order. -/
def lifetimesOf (params : List GenericParam) : List String :=
  params.filterMap fun p =>
    match p with
    | .lifetimeParam n => some n
    | _ => none

/-- Whether a generic parameter is a lifetime parameter. -/
def GenericParam.isLifetime : GenericParam → Bool
  | .lifetimeParam _ => true
  | _ => false

/-- Whether the derive-input data is a struct. -/
def Data.isStruct : Data → Bool
  | .structData _ => true
  | _ => false

/-! ## Emitted implementations -/

/-- The four accessor capabilities (the four provider traits). -/
inductive Capability : Type where
  | get
  | getMut
  | getOptional
  | getOptionalMut
deriving DecidableEq

/-- The body of an emitted accessor method: an access to one field, or
returning self (identity accessor of SelfComponentProvider). -/
inductive Body : Type where
  | fieldAccess (m : Member)
  | selfValue
deriving DecidableEq

/-- One emitted trait implementation: which capability trait, for which
component target type, with which method return type and body. -/
structure ImplDecl : Type where
  capability : Capability
  target : Ty
  retTy : Ty
  body : Body
deriving DecidableEq

/-- Output item of a proc-macro entry point: an implementation or a
compile error diagnostic. -/
inductive OutDecl : Type where
  | impl (i : ImplDecl)
  | compileError (msg : String)
deriving DecidableEq

/-! ## component_provider.rs helpers -/

/-- extract_ref_type: the referent of a reference type, otherwise none. -/
def extract_ref_type : Ty → Option Ty
  | .reference _ _ elem => some elem
  | _ => none

/-- extract_option_type: if the type is a path whose FIRST segment is the
identifier Option with angle-bracketed arguments whose first argument is
a type, extract its referent via extract_ref_type. -/
def extract_option_type : Ty → Option Ty
  | .path (Segs.cons ident arguments _) =>
      if ident = "Option" then
        match arguments with
        | .angle (Args.cons (Arg.ty t) _) => extract_ref_type t
        | _ => none
      else none
  | _ => none

mutual

/-- is_mutable_type_ref traversal on types.  The syn visitor overrides
visit_type_reference and does NOT recurse into the referent, so a
reference contributes exactly its own mutability flag; the default
traversal still descends through paths and tuples. -/
def ty_has_mut_ref : Ty → Bool
  | .reference _ m _ => m
  | .path segs => segs_has_mut_ref segs
  | .tuple ts => tys_has_mut_ref ts

def tys_has_mut_ref : Tys → Bool
  | .nil => false
  | .cons t ts => ty_has_mut_ref t || tys_has_mut_ref ts

def segs_has_mut_ref : Segs → Bool
  | .nil => false
  | .cons _ pargs ss => pathargs_has_mut_ref pargs || segs_has_mut_ref ss

def pathargs_has_mut_ref : PathArgs → Bool
  | .noArgs => false
  | .angle args => args_has_mut_ref args

def args_has_mut_ref : Args → Bool
  | .nil => false
  | .cons a rest => arg_has_mut_ref a || args_has_mut_ref rest

def arg_has_mut_ref : Arg → Bool
  | .lt _ => false
  | .ty t => ty_has_mut_ref t

end

/-- is_mutable_type_ref from component_provider.rs. -/
def is_mutable_type_ref (t : Ty) : Bool := ty_has_mut_ref t

mutual

/-- remove_type_mutability traversal.  The overridden visitor clears the
mutability of a reference and does NOT recurse into its referent; the
default traversal still descends through paths and tuples. -/
def ty_remove_mut : Ty → Ty
  | .reference lt _ elem => .reference lt false elem
  | .path segs => .path (segs_remove_mut segs)
  | .tuple ts => .tuple (tys_remove_mut ts)

def tys_remove_mut : Tys → Tys
  | .nil => .nil
  | .cons t ts => .cons (ty_remove_mut t) (tys_remove_mut ts)

def segs_remove_mut : Segs → Segs
  | .nil => .nil
  | .cons i pargs ss => .cons i (pathargs_remove_mut pargs) (segs_remove_mut ss)

def pathargs_remove_mut : PathArgs → PathArgs
  | .noArgs => .noArgs
  | .angle args => .angle (args_remove_mut args)

def args_remove_mut : Args → Args
  | .nil => .nil
  | .cons a rest => .cons (arg_remove_mut a) (args_remove_mut rest)

def arg_remove_mut : Arg → Arg
  | .lt n => .lt n
  | .ty t => .ty (ty_remove_mut t)

end

/-- remove_type_mutability from component_provider.rs. -/
def remove_type_mutability (t : Ty) : Ty := ty_remove_mut t

mutual

/-- remove_type_lifetime traversal.  The overridden visitor clears the
lifetime of a reference and does NOT recurse into its referent; the
default traversal still descends through paths and tuples (lifetime
arguments of paths are left untouched). -/
def ty_remove_lt : Ty → Ty
  | .reference _ m elem => .reference none m elem
  | .path segs => .path (segs_remove_lt segs)
  | .tuple ts => .tuple (tys_remove_lt ts)

def tys_remove_lt : Tys → Tys
  | .nil => .nil
  | .cons t ts => .cons (ty_remove_lt t) (tys_remove_lt ts)

def segs_remove_lt : Segs → Segs
  | .nil => .nil
  | .cons i pargs ss => .cons i (pathargs_remove_lt pargs) (segs_remove_lt ss)

def pathargs_remove_lt : PathArgs → PathArgs
  | .noArgs => .noArgs
  | .angle args => .angle (args_remove_lt args)

def args_remove_lt : Args → Args
  | .nil => .nil
  | .cons a rest => .cons (arg_remove_lt a) (args_remove_lt rest)

def arg_remove_lt : Arg → Arg
  | .lt n => .lt n
  | .ty t => .ty (ty_remove_lt t)

end

/-- remove_type_lifetime from component_provider.rs. -/
def remove_type_lifetime (t : Ty) : Ty := ty_remove_lt t

mutual

/-- Full traversal: does the type mention any lifetime anywhere (on a
reference or as a path generic argument)?  Property checker used to
state theorems about emitted signatures; not part of the source. -/
def ty_mentions_lt : Ty → Bool
  | .reference lt _ elem => lt.isSome || ty_mentions_lt elem
  | .path segs => segs_mentions_lt segs
  | .tuple ts => tys_mentions_lt ts

def tys_mentions_lt : Tys → Bool
  | .nil => false
  | .cons t ts => ty_mentions_lt t || tys_mentions_lt ts

def segs_mentions_lt : Segs → Bool
  | .nil => false
  | .cons _ pargs ss => pathargs_mentions_lt pargs || segs_mentions_lt ss

def pathargs_mentions_lt : PathArgs → Bool
  | .noArgs => false
  | .angle args => args_mentions_lt args

def args_mentions_lt : Args → Bool
  | .nil => false
  | .cons a rest => arg_mentions_lt a || args_mentions_lt rest

def arg_mentions_lt : Arg → Bool
  | .lt _ => true
  | .ty t => ty_mentions_lt t

end

/-! ## component_provider.rs decomposition and derive streams -/

/-- Bundle (no lifetime parameter) or Query (one lifetime parameter). -/
inductive StructType : Type where
  | Bundle
  | Query
deriving DecidableEq

/-- The decomposition of a derive input produced by
decompose_derive_input. -/
structure InputDecomposition : Type where
  ident : String
  fields : List Member
  types : List Ty
  ref_types : List (Option Ty)
  option_types : List (Option Ty)
  struct_type : StructType
deriving DecidableEq

/-- Member/type extraction from struct fields (named fields yield named
members, unnamed fields yield positional indices, unit yields nothing). -/
def membersAndTypes : StructFields → List Member × List Ty
  | .named fs => (fs.map fun f => Member.named f.1, fs.map Prod.snd)
  | .unnamed ts => ((List.range ts.length).map Member.unnamed, ts)
  | .unit => ([], [])

/-- decompose_derive_input from component_provider.rs: reject non-structs,
more than one lifetime parameter, and any non-lifetime generic parameter
(params count different from lifetime count); classify Bundle vs Query by
the lifetime count. -/
def decompose_derive_input (input : DeriveInput) : Except String InputDecomposition :=
  match input.data with
  | .structData df =>
    let lifetimes := lifetimesOf input.generics
    if lifetimes.length > 1 then
      .error "must have <= 1 lifetime parameter"
    else if input.generics.length ≠ lifetimes.length then
      .error "must have no type parameters"
    else
      let (fields, types) := membersAndTypes df
      .ok { ident := input.ident
            fields := fields
            types := types
            ref_types := types.map extract_ref_type
            option_types := types.map extract_option_type
            struct_type := if lifetimes.length = 0 then .Bundle else .Query }
  | _ => .error "derive(ComponentProvider) may only be applied to structs"

/-- derive_refs: ComponentProvider implementations.  Bundle: one per
field, target the field type, return a shared reference to it.  Query:
one per reference-classified field, target the referent, return the
field type with mutability then lifetime removed. -/
def derive_refs (input : DeriveInput) : Except String (List ImplDecl) :=
  match decompose_derive_input input with
  | .error e => .error e
  | .ok d =>
    match d.struct_type with
    | .Bundle =>
      .ok ((d.fields.zip d.types).map fun ft =>
        { capability := .get
          target := ft.2
          retTy := Ty.reference none false ft.2
          body := .fieldAccess ft.1 })
    | .Query =>
      .ok ((d.fields.zip (d.types.zip d.ref_types)).filterMap fun ftp =>
        match ftp.2.2 with
        | none => none
        | some p =>
          some { capability := .get
                 target := p
                 retTy := remove_type_lifetime (remove_type_mutability ftp.2.1)
                 body := .fieldAccess ftp.1 })

/-- derive_muts: ComponentProviderMut implementations.  Bundle: one per
field.  Query: one per reference-classified field whose type passes
is_mutable_type_ref, returning the field type with lifetime removed. -/
def derive_muts (input : DeriveInput) : Except String (List ImplDecl) :=
  match decompose_derive_input input with
  | .error e => .error e
  | .ok d =>
    match d.struct_type with
    | .Bundle =>
      .ok ((d.fields.zip d.types).map fun ft =>
        { capability := .getMut
          target := ft.2
          retTy := Ty.reference none true ft.2
          body := .fieldAccess ft.1 })
    | .Query =>
      .ok ((d.fields.zip (d.types.zip d.ref_types)).filterMap fun ftp =>
        if is_mutable_type_ref ftp.2.1 then
          match ftp.2.2 with
          | none => none
          | some p =>
            some { capability := .getMut
                   target := p
                   retTy := remove_type_lifetime ftp.2.1
                   body := .fieldAccess ftp.1 }
        else none)

/-- derive_option_refs: ComponentProviderOptional implementations.
Bundle: none.  Query: one per Option-classified field. -/
def derive_option_refs (input : DeriveInput) : Except String (List ImplDecl) :=
  match decompose_derive_input input with
  | .error e => .error e
  | .ok d =>
    match d.struct_type with
    | .Bundle => .ok []
    | .Query =>
      .ok ((d.fields.zip (d.types.zip d.option_types)).filterMap fun ftp =>
        match ftp.2.2 with
        | none => none
        | some p =>
          some { capability := .getOptional
                 target := p
                 retTy := remove_type_lifetime (remove_type_mutability ftp.2.1)
                 body := .fieldAccess ftp.1 })

/-- derive_option_muts: ComponentProviderOptionalMut implementations.
Bundle: none.  Query: one per Option-classified field whose type passes
is_mutable_type_ref. -/
def derive_option_muts (input : DeriveInput) : Except String (List ImplDecl) :=
  match decompose_derive_input input with
  | .error e => .error e
  | .ok d =>
    match d.struct_type with
    | .Bundle => .ok []
    | .Query =>
      .ok ((d.fields.zip (d.types.zip d.option_types)).filterMap fun ftp =>
        if is_mutable_type_ref ftp.2.1 then
          match ftp.2.2 with
          | none => none
          | some p =>
            some { capability := .getOptionalMut
                   target := p
                   retTy := remove_type_lifetime ftp.2.1
                   body := .fieldAccess ftp.1 }
        else none)

/-- derive from component_provider.rs: concatenate the four streams. -/
def derive (input : DeriveInput) : Except String (List ImplDecl) :=
  match derive_refs input with
  | .error e => .error e
  | .ok stream_refs =>
    match derive_muts input with
    | .error e => .error e
    | .ok stream_muts =>
      match derive_option_refs input with
      | .error e => .error e
      | .ok stream_option_refs =>
        match derive_option_muts input with
        | .error e => .error e
        | .ok stream_option_muts =>
          .ok (stream_refs ++ stream_muts ++ stream_option_refs ++ stream_option_muts)

/-- query_component_provider_derive from macros/lib.rs: emit the derived
implementations, or a single compile error diagnostic on failure. -/
def query_component_provider_derive (input : DeriveInput) : List OutDecl :=
  match derive input with
  | .ok ts => ts.map OutDecl.impl
  | .error e => [OutDecl.compileError e]

/-! ## self_component_provider.rs -/

namespace SelfComponentProvider

/-- derive from self_component_provider.rs: reject non-structs, any
lifetime parameter, and any remaining generic parameter; emit the
identity ComponentProvider and ComponentProviderMut implementations
targeting the struct type itself. -/
def derive (input : DeriveInput) : Except String (List ImplDecl) :=
  match input.data with
  | .structData _ =>
    let lifetimes := lifetimesOf input.generics
    if lifetimes.length > 0 then
      .error "must have no lifetime parameters"
    else if input.generics.length > 0 then
      .error "must have no type parameters"
    else
      let selfTy := Ty.path (Segs.cons input.ident .noArgs .nil)
      .ok [ { capability := .get
              target := selfTy
              retTy := Ty.reference none false selfTy
              body := .selfValue },
            { capability := .getMut
              target := selfTy
              retTy := Ty.reference none true selfTy
              body := .selfValue } ]
  | _ => .error "derive(SelfComponentProvider) may only be applied to structs"

/-- self_component_provider_derive from macros/lib.rs. -/
def entry (input : DeriveInput) : List OutDecl :=
  match derive input with
  | .ok ts => ts.map OutDecl.impl
  | .error e => [OutDecl.compileError e]

end SelfComponentProvider

/-! ## default_trait_impl.rs -/

namespace DefaultTraitImpl

/-- syn::ItemTrait fragment: name, supertrait bounds, trait items
(method declarations, kept abstract). -/
structure ItemTrait : Type where
  ident : String
  supertraits : List String
  items : List String
deriving DecidableEq

/-- The output token stream of the attribute: the original trait
declaration followed by one blanket implementation of the trait for
every type T satisfying the recorded bounds, supplying no methods. -/
structure TraitOutput : Type where
  original : ItemTrait
  implTraitName : String
  implBounds : List String
  implMethods : List String
deriving DecidableEq

/-- generate from default_trait_impl.rs: emit the input unchanged plus
a blanket implementation with the supertraits as bounds and an empty
body.  It never fails. -/
def generate (input : ItemTrait) : Except String TraitOutput :=
  .ok { original := input
        implTraitName := input.ident
        implBounds := input.supertraits
        implMethods := [] }

end DefaultTraitImpl

/-! ## gen_tuple_query_component_providers (src/lib.rs macro) -/

namespace TupleQuery

/-- A token tree as matched by the macro muncher: a lone reference
token, a doubled reference token, a lifetime token, any other token
(identifier or punctuation), a parenthesized group, or the internal
paren-closing marker the muncher splices into its input. -/
inductive Tok : Type where
  | amp : Tok
  | ampamp : Tok
  | lt (name : String) : Tok
  | raw (s : String) : Tok
  | group (ts : List Tok) : Tok
  | parenMarker : Tok

/-- Weight of a token stream: groups cost their delimiters plus their
content, every other token costs one.  Termination measure for the
muncher, which replaces a group by its spliced content plus a marker. -/
def toksWeight : List Tok → Nat
  | [] => 0
  | .group g :: r => 2 + toksWeight g + toksWeight r
  | _ :: r => 1 + toksWeight r
termination_by ts => sizeOf ts
decreasing_by
  all_goals simp_wf
  all_goals omega

/-- No internal paren marker occurs in the stream (true of any stream
derived from real source tokens). -/
def markerFree : List Tok → Bool
  | [] => true
  | .parenMarker :: _ => false
  | .group g :: r => markerFree g && markerFree r
  | _ :: r => markerFree r
termination_by ts => sizeOf ts
decreasing_by
  all_goals simp_wf
  all_goals omega

/-- The TT-muncher of gen_tuple_query_component_providers, with its
explicit stack of open parenthesized groups (innermost first).  A group
token pushes an empty frame and splices the group content followed by
the closing marker into the input; the marker pops the finished frame
and appends it to the enclosing frame as a group; a lone reference
token is rewritten to carry the lifetime, a doubled one to carry it on
both levels; any other token passes through.  At the end of input the
Done rule requires exactly one non-empty frame and yields it. -/
def munch : List (List Tok) → List Tok → Option (List Tok)
  | stack, .group g :: rest => munch ([] :: stack) (g ++ .parenMarker :: rest)
  | close :: top :: stack, .parenMarker :: rest =>
      munch ((top ++ [.group close]) :: stack) rest
  | [], .parenMarker :: _ => none
  | [_], .parenMarker :: _ => none
  | top :: stack, .amp :: rest => munch ((top ++ [.amp, .lt "a"]) :: stack) rest
  | top :: stack, .ampamp :: rest =>
      munch ((top ++ [.amp, .lt "a", .amp, .lt "a"]) :: stack) rest
  | top :: stack, .lt n :: rest => munch ((top ++ [.lt n]) :: stack) rest
  | top :: stack, .raw s :: rest => munch ((top ++ [.raw s]) :: stack) rest
  | [], .amp :: _ | [], .ampamp :: _ | [], .lt _ :: _ | [], .raw _ :: _ => none
  | [top], [] => if top.isEmpty then none else some top
  | [], [] => none
  | _ :: _ :: _, [] => none
termination_by _ input => toksWeight input
decreasing_by
  all_goals
    have wapp : ∀ (a b : List Tok), toksWeight (a ++ b) = toksWeight a + toksWeight b := by
      intro a
      induction a with
      | nil => intro b; simp [toksWeight]
      | cons x xs ih => intro b; cases x <;> simp [toksWeight, ih] <;> omega
    simp [toksWeight, wapp]
  all_goals omega

/-- A generated identifier: a base name plus the uniqueness counter
supplied by the gensym primitive. -/
structure GenIdent : Type where
  base : String
  uid : Nat
deriving DecidableEq

/-- Modelled from the spec: the global-uniqueness-generating primitive
(the gensym crate, external to this repository) produces a fresh
identifier per invocation; we model its output as a base name tagged
with an invocation counter, distinct counters giving distinct names. -/
def gensym (n : Nat) : GenIdent := { base := "__tuple_query_struct", uid := n }

/-- The declarations produced by one expansion: a one-lifetime tuple
struct with the rewritten field tokens, the derives applied to it, and
the lifetime-generic alias bound to it. -/
structure TupleQueryOut : Type where
  structName : GenIdent
  structLifetime : String
  fieldToks : List Tok
  derives : List String
  aliasName : String
  aliasTarget : GenIdent

/-- The full macro expansion: entry requires a non-empty token sequence
and starts the muncher with one empty frame; the final rules require
the surviving frame to be exactly one parenthesized group, whose
content becomes the unnamed fields of the generated struct; the struct
derives hecs::Query and ComponentProvider and the alias is bound to
it. -/
def expand (aliasId : String) (input : List Tok) (fresh : GenIdent) : Option TupleQueryOut :=
  if input.isEmpty then none
  else
    match munch [[]] input with
    | some [Tok.group tt] =>
        some { structName := fresh
               structLifetime := "a"
               fieldToks := tt
               derives := ["hecs::Query", "ComponentProvider"]
               aliasName := aliasId
               aliasTarget := fresh }
    | _ => none

/-- The one-step rewrite the spec describes: replace a lone reference
token by a lifetime-annotated one, a doubled reference token by two
lifetime-annotated ones, recurse into groups, pass everything else
through.  Stated from the spec for comparison with the stack muncher. -/
def rewriteSpec : List Tok → List Tok
  | [] => []
  | .amp :: r => .amp :: .lt "a" :: rewriteSpec r
  | .ampamp :: r => .amp :: .lt "a" :: .amp :: .lt "a" :: rewriteSpec r
  | .group g :: r => .group (rewriteSpec g) :: rewriteSpec r
  | t :: r => t :: rewriteSpec r
termination_by ts => sizeOf ts
decreasing_by
  all_goals simp_wf
  all_goals omega

end TupleQuery

/-! ## Statement-side definitions: input shapes and expected streams -/

/-- A Query-kind derive input: one lifetime parameter, named fields. -/
def queryInput (n lt : String) (fs : List (String × Ty)) : DeriveInput :=
  { ident := n, generics := [.lifetimeParam lt], data := .structData (.named fs) }

/-- A Bundle-kind derive input: no generic parameters at all. -/
def bundleInput (n : String) (df : StructFields) : DeriveInput :=
  { ident := n, generics := [], data := .structData df }

/-- The optional-wrapped reference type expression: a path whose single
segment is Option with one angle-bracketed type argument that is a
reference. -/
def optionOf (lt : Option String) (mu : Bool) (T : Ty) : Ty :=
  .path (.cons "Option" (.angle (.cons (.ty (.reference lt mu T)) .nil)) .nil)

/-- The fully qualified Option spelling, whose FIRST path segment is
std rather than Option. -/
def stdOptionOf (lt : Option String) (mu : Bool) (T : Ty) : Ty :=
  .path (.cons "std" .noArgs
    (.cons "option" .noArgs
      (.cons "Option" (.angle (.cons (.ty (.reference lt mu T)) .nil)) .nil)))

/-- The shape constraints under which the ComponentProvider derive
succeeds: a struct, at most one lifetime parameter, and no non-lifetime
generic parameter. -/
def shapeOk (input : DeriveInput) : Prop :=
  input.data.isStruct = true
  ∧ (lifetimesOf input.generics).length ≤ 1
  ∧ ∀ p ∈ input.generics, p.isLifetime = true

/-- Expected ComponentProvider stream for a Query struct. -/
def refsQList (fs : List (String × Ty)) : List ImplDecl :=
  fs.filterMap fun f =>
    match extract_ref_type f.2 with
    | none => none
    | some p =>
      some { capability := .get
             target := p
             retTy := remove_type_lifetime (remove_type_mutability f.2)
             body := .fieldAccess (.named f.1) }

/-- Expected ComponentProviderMut stream for a Query struct. -/
def mutsQList (fs : List (String × Ty)) : List ImplDecl :=
  fs.filterMap fun f =>
    if is_mutable_type_ref f.2 then
      match extract_ref_type f.2 with
      | none => none
      | some p =>
        some { capability := .getMut
               target := p
               retTy := remove_type_lifetime f.2
               body := .fieldAccess (.named f.1) }
    else none

/-- Expected ComponentProviderOptional stream for a Query struct. -/
def optQList (fs : List (String × Ty)) : List ImplDecl :=
  fs.filterMap fun f =>
    match extract_option_type f.2 with
    | none => none
    | some p =>
      some { capability := .getOptional
             target := p
             retTy := remove_type_lifetime (remove_type_mutability f.2)
             body := .fieldAccess (.named f.1) }

/-- Expected ComponentProviderOptionalMut stream for a Query struct. -/
def optMutQList (fs : List (String × Ty)) : List ImplDecl :=
  fs.filterMap fun f =>
    if is_mutable_type_ref f.2 then
      match extract_option_type f.2 with
      | none => none
      | some p =>
        some { capability := .getOptionalMut
               target := p
               retTy := remove_type_lifetime f.2
               body := .fieldAccess (.named f.1) }
    else none

/-- Expected ComponentProvider stream for a Bundle struct: one shared
accessor per field, targeting the type of that field. -/
def bundleGets (df : StructFields) : List ImplDecl :=
  ((membersAndTypes df).1.zip (membersAndTypes df).2).map fun ft =>
    { capability := .get
      target := ft.2
      retTy := Ty.reference none false ft.2
      body := .fieldAccess ft.1 }

/-- Expected ComponentProviderMut stream for a Bundle struct. -/
def bundleMuts (df : StructFields) : List ImplDecl :=
  ((membersAndTypes df).1.zip (membersAndTypes df).2).map fun ft =>
    { capability := .getMut
      target := ft.2
      retTy := Ty.reference none true ft.2
      body := .fieldAccess ft.1 }

/-- Sample component types for concrete instances. -/
def tyI32 : Ty := .path (.cons "i32" .noArgs .nil)

def tyBool : Ty := .path (.cons "bool" .noArgs .nil)

def tyStr : Ty := .path (.cons "str" .noArgs .nil)

def tyMyComponent : Ty := .path (.cons "MyComponent" .noArgs .nil)


/-! ## Helper lemmas about the decomposition and the derive streams -/

theorem lifetimesOf_length_le (params : List GenericParam) :
    (lifetimesOf params).length ≤ params.length := by
  simpa [lifetimesOf] using List.length_filterMap_le _ params

theorem lifetimesOf_length_eq_iff (params : List GenericParam) :
    (lifetimesOf params).length = params.length ↔ ∀ p ∈ params, p.isLifetime = true := by
  induction params with
  | nil => simp [lifetimesOf]
  | cons p ps ih =>
    cases p with
    | lifetimeParam n =>
      simp [lifetimesOf, GenericParam.isLifetime] at ih ⊢
      simpa [lifetimesOf] using ih
    | typeParam n =>
      simp [lifetimesOf, GenericParam.isLifetime] at ih ⊢
      have := lifetimesOf_length_le ps
      simp [lifetimesOf] at this
      omega
    | constParam n =>
      simp [lifetimesOf, GenericParam.isLifetime] at ih ⊢
      have := lifetimesOf_length_le ps
      simp [lifetimesOf] at this
      omega

theorem decompose_isOk_iff (input : DeriveInput) :
    (decompose_derive_input input).isOk = true ↔ shapeOk input := by
  cases hd : input.data with
  | structData df =>
    rcases hmt : membersAndTypes df with ⟨ms, ts⟩
    by_cases h1 : (lifetimesOf input.generics).length > 1
    · rw [show decompose_derive_input input = .error "must have <= 1 lifetime parameter" by
        simp [decompose_derive_input, hd, h1]]
      simp only [Except.isOk, Except.toBool, Bool.false_eq_true, false_iff, shapeOk, not_and]
      intro _ hle
      exact absurd h1 (by omega)
    · by_cases h2 : input.generics.length ≠ (lifetimesOf input.generics).length
      · rw [show decompose_derive_input input = .error "must have no type parameters" by
          simp [decompose_derive_input, hd, h1, h2]]
        simp only [Except.isOk, Except.toBool, Bool.false_eq_true, false_iff, shapeOk, not_and]
        intro _ _ hall
        exact h2 ((lifetimesOf_length_eq_iff input.generics).mpr hall).symm
      · simp only [not_not] at h2
        have hok : decompose_derive_input input
            = .ok { ident := input.ident
                    fields := ms
                    types := ts
                    ref_types := ts.map extract_ref_type
                    option_types := ts.map extract_option_type
                    struct_type :=
                      if (lifetimesOf input.generics).length = 0 then .Bundle else .Query } := by
          simp [decompose_derive_input, hd, h1, h2, hmt]
        rw [hok]
        simp only [Except.isOk, Except.toBool, true_iff, shapeOk]
        refine ⟨by rw [hd]; rfl, by omega, ?_⟩
        rw [← lifetimesOf_length_eq_iff]
        omega
  | enumData =>
    rw [show decompose_derive_input input
        = .error "derive(ComponentProvider) may only be applied to structs" by
      simp [decompose_derive_input, hd]]
    simp [Except.isOk, Except.toBool, shapeOk, hd, Data.isStruct]
  | unionData =>
    rw [show decompose_derive_input input
        = .error "derive(ComponentProvider) may only be applied to structs" by
      simp [decompose_derive_input, hd]]
    simp [Except.isOk, Except.toBool, shapeOk, hd, Data.isStruct]

theorem derive_isOk_iff_decompose (input : DeriveInput) :
    (derive input).isOk = true ↔ (decompose_derive_input input).isOk = true := by
  cases hdec : decompose_derive_input input with
  | error e =>
    simp [derive, derive_refs, hdec, Except.isOk, Except.toBool]
  | ok d =>
    cases hst : d.struct_type with
    | Bundle =>
      simp [derive, derive_refs, derive_muts, derive_option_refs, derive_option_muts,
        hdec, hst, Except.isOk, Except.toBool]
    | Query =>
      simp [derive, derive_refs, derive_muts, derive_option_refs, derive_option_muts,
        hdec, hst, Except.isOk, Except.toBool]

theorem zip_maps_filterMap {α β : Type} (g1 : α → Member) (g2 : α → Ty)
    (h : Ty → Option Ty) (F : Member × Ty × Option Ty → Option β) (l : List α) :
    ((l.map g1).zip ((l.map g2).zip ((l.map g2).map h))).filterMap F
      = l.filterMap (fun a => F (g1 a, g2 a, h (g2 a))) := by
  induction l with
  | nil => rfl
  | cons a as ih =>
    simp only [List.map_cons, List.zip_cons_cons, List.filterMap_cons, ih]

theorem decompose_query (n lt : String) (fs : List (String × Ty)) :
    decompose_derive_input (queryInput n lt fs)
      = .ok { ident := n
              fields := fs.map fun f => .named f.1
              types := fs.map Prod.snd
              ref_types := (fs.map Prod.snd).map extract_ref_type
              option_types := (fs.map Prod.snd).map extract_option_type
              struct_type := .Query } := rfl

theorem derive_refs_query (n lt : String) (fs : List (String × Ty)) :
    derive_refs (queryInput n lt fs) = .ok (refsQList fs) := by
  simp only [derive_refs, decompose_query]
  rw [zip_maps_filterMap]
  rfl

theorem derive_muts_query (n lt : String) (fs : List (String × Ty)) :
    derive_muts (queryInput n lt fs) = .ok (mutsQList fs) := by
  simp only [derive_muts, decompose_query]
  rw [zip_maps_filterMap]
  rfl

theorem derive_option_refs_query (n lt : String) (fs : List (String × Ty)) :
    derive_option_refs (queryInput n lt fs) = .ok (optQList fs) := by
  simp only [derive_option_refs, decompose_query]
  rw [zip_maps_filterMap]
  rfl

theorem derive_option_muts_query (n lt : String) (fs : List (String × Ty)) :
    derive_option_muts (queryInput n lt fs) = .ok (optMutQList fs) := by
  simp only [derive_option_muts, decompose_query]
  rw [zip_maps_filterMap]
  rfl

theorem derive_query (n lt : String) (fs : List (String × Ty)) :
    derive (queryInput n lt fs)
      = .ok (refsQList fs ++ mutsQList fs ++ optQList fs ++ optMutQList fs) := by
  simp [derive, derive_refs_query, derive_muts_query, derive_option_refs_query,
    derive_option_muts_query]

theorem keys_nodup_unique_val {α β : Type} (l : List (α × β))
    (hnd : (l.map Prod.fst).Nodup) {a : α} {b c : β}
    (hb : (a, b) ∈ l) (hc : (a, c) ∈ l) : b = c := by
  induction l with
  | nil => cases hb
  | cons x xs ih =>
    simp only [List.map_cons, List.nodup_cons] at hnd
    rcases List.mem_cons.mp hb with hb1 | hb1 <;> rcases List.mem_cons.mp hc with hc1 | hc1
    · have heq : (a, b) = ((a, c) : α × β) := hb1.trans hc1.symm
      exact congrArg Prod.snd heq
    · exfalso
      apply hnd.1
      rw [← hb1]
      have hm : (a, c).1 ∈ List.map Prod.fst xs := List.mem_map_of_mem Prod.fst hc1
      exact hm
    · exfalso
      apply hnd.1
      rw [← hc1]
      have hm : (a, b).1 ∈ List.map Prod.fst xs := List.mem_map_of_mem Prod.fst hb1
      exact hm
    · exact ih hnd.2 hb1 hc1

theorem mem_refsQList (fs : List (String × Ty)) (d : ImplDecl) :
    d ∈ refsQList fs
      ↔ ∃ f ∈ fs, ∃ p, extract_ref_type f.2 = some p
          ∧ d = { capability := .get
                  target := p
                  retTy := remove_type_lifetime (remove_type_mutability f.2)
                  body := .fieldAccess (.named f.1) } := by
  constructor
  · intro h
    rcases List.mem_filterMap.mp h with ⟨f, hf, hsome⟩
    cases hext : extract_ref_type f.2 with
    | none => simp [hext] at hsome
    | some p =>
      simp [hext] at hsome
      exact ⟨f, hf, p, hext, hsome.symm⟩
  · rintro ⟨f, hf, p, hext, rfl⟩
    exact List.mem_filterMap.mpr ⟨f, hf, by simp [hext]⟩

theorem mem_mutsQList (fs : List (String × Ty)) (d : ImplDecl) :
    d ∈ mutsQList fs
      ↔ ∃ f ∈ fs, is_mutable_type_ref f.2 = true
          ∧ ∃ p, extract_ref_type f.2 = some p
          ∧ d = { capability := .getMut
                  target := p
                  retTy := remove_type_lifetime f.2
                  body := .fieldAccess (.named f.1) } := by
  constructor
  · intro h
    rcases List.mem_filterMap.mp h with ⟨f, hf, hsome⟩
    cases hmu : is_mutable_type_ref f.2 with
    | false => simp [hmu] at hsome
    | true =>
      cases hext : extract_ref_type f.2 with
      | none => simp [hmu, hext] at hsome
      | some p =>
        simp [hmu, hext] at hsome
        exact ⟨f, hf, hmu, p, hext, hsome.symm⟩
  · rintro ⟨f, hf, hmu, p, hext, rfl⟩
    exact List.mem_filterMap.mpr ⟨f, hf, by simp [hmu, hext]⟩

theorem mem_optQList (fs : List (String × Ty)) (d : ImplDecl) :
    d ∈ optQList fs
      ↔ ∃ f ∈ fs, ∃ p, extract_option_type f.2 = some p
          ∧ d = { capability := .getOptional
                  target := p
                  retTy := remove_type_lifetime (remove_type_mutability f.2)
                  body := .fieldAccess (.named f.1) } := by
  constructor
  · intro h
    rcases List.mem_filterMap.mp h with ⟨f, hf, hsome⟩
    cases hext : extract_option_type f.2 with
    | none => simp [hext] at hsome
    | some p =>
      simp [hext] at hsome
      exact ⟨f, hf, p, hext, hsome.symm⟩
  · rintro ⟨f, hf, p, hext, rfl⟩
    exact List.mem_filterMap.mpr ⟨f, hf, by simp [hext]⟩

theorem mem_optMutQList (fs : List (String × Ty)) (d : ImplDecl) :
    d ∈ optMutQList fs
      ↔ ∃ f ∈ fs, is_mutable_type_ref f.2 = true
          ∧ ∃ p, extract_option_type f.2 = some p
          ∧ d = { capability := .getOptionalMut
                  target := p
                  retTy := remove_type_lifetime f.2
                  body := .fieldAccess (.named f.1) } := by
  constructor
  · intro h
    rcases List.mem_filterMap.mp h with ⟨f, hf, hsome⟩
    cases hmu : is_mutable_type_ref f.2 with
    | false => simp [hmu] at hsome
    | true =>
      cases hext : extract_option_type f.2 with
      | none => simp [hmu, hext] at hsome
      | some p =>
        simp [hmu, hext] at hsome
        exact ⟨f, hf, hmu, p, hext, hsome.symm⟩
  · rintro ⟨f, hf, hmu, p, hext, rfl⟩
    exact List.mem_filterMap.mpr ⟨f, hf, by simp [hmu, hext]⟩

/-! ## Claim theorems -/

/-- C1: for every Query-kind struct descriptor, a field whose type is a
borrowed reference to T yields a get implementation targeting T
regardless of mutability; it yields a get-mutable implementation
targeting T when the reference was declared mutable; and a non-mutable
reference field never yields any get-mutable implementation. -/
theorem c1_query_ref_get_and_mut (n lt fname : String) (fs : List (String × Ty))
    (rlt : Option String) (mu : Bool) (T : Ty) (out : List ImplDecl)
    (hmem : (fname, Ty.reference rlt mu T) ∈ fs)
    (hout : derive (queryInput n lt fs) = .ok out) :
    (⟨.get, T, .reference none false T, .fieldAccess (.named fname)⟩ : ImplDecl) ∈ out
    ∧ (mu = true →
        (⟨.getMut, T, .reference none true T, .fieldAccess (.named fname)⟩ : ImplDecl) ∈ out)
    ∧ (mu = false → (fs.map Prod.fst).Nodup →
        ∀ d ∈ out, d.capability = .getMut → d.body ≠ .fieldAccess (.named fname)) := by
  rw [derive_query] at hout
  have hout2 : out = refsQList fs ++ mutsQList fs ++ optQList fs ++ optMutQList fs :=
    (Except.ok.inj hout).symm
  subst hout2
  refine ⟨?_, ?_, ?_⟩
  · have hm : (⟨.get, T, .reference none false T, .fieldAccess (.named fname)⟩ : ImplDecl)
        ∈ refsQList fs := by
      rw [mem_refsQList]
      exact ⟨(fname, Ty.reference rlt mu T), hmem, T, rfl, by
        simp [remove_type_lifetime, remove_type_mutability, ty_remove_mut, ty_remove_lt]⟩
    simp [hm]
  · intro hmu
    subst hmu
    have hm : (⟨.getMut, T, .reference none true T, .fieldAccess (.named fname)⟩ : ImplDecl)
        ∈ mutsQList fs := by
      rw [mem_mutsQList]
      exact ⟨(fname, Ty.reference rlt true T), hmem, rfl, T, rfl, by
        simp [remove_type_lifetime, ty_remove_lt]⟩
    simp [hm]
  · intro hmu hnd d hd hcap hbody
    subst hmu
    rcases List.mem_append.mp hd with hd1 | hoptm
    rcases List.mem_append.mp hd1 with hd2 | hopt
    rcases List.mem_append.mp hd2 with href | hmut
    · rcases (mem_refsQList fs d).mp href with ⟨f, _, p, _, rfl⟩
      simp at hcap
    · rcases (mem_mutsQList fs d).mp hmut with ⟨f, hf, hfmu, p, hext, rfl⟩
      simp only [Body.fieldAccess.injEq, Member.named.injEq] at hbody
      have hkey : f = (f.1, f.2) := rfl
      rw [hkey, hbody] at hf
      have hty : f.2 = Ty.reference rlt false T :=
        keys_nodup_unique_val fs hnd hf hmem
      rw [hty] at hfmu
      simp [is_mutable_type_ref, ty_has_mut_ref] at hfmu
    · rcases (mem_optQList fs d).mp hopt with ⟨f, _, p, _, rfl⟩
      simp at hcap
    · rcases (mem_optMutQList fs d).mp hoptm with ⟨f, _, _, p, _, rfl⟩
      simp at hcap

/-- Witness for C1 at a concrete Query struct with a mutable and a
non-mutable reference field. -/
theorem c1_query_ref_get_and_mut_witness :
    (⟨.get, tyBool, .reference none false tyBool, .fieldAccess (.named "velocity")⟩ : ImplDecl)
      ∈ ([ ⟨.get, tyI32, .reference none false tyI32, .fieldAccess (.named "position")⟩,
           ⟨.get, tyBool, .reference none false tyBool, .fieldAccess (.named "velocity")⟩,
           ⟨.getMut, tyI32, .reference none true tyI32, .fieldAccess (.named "position")⟩ ]
         : List ImplDecl)
    ∧ ∀ d ∈ ([ ⟨.get, tyI32, .reference none false tyI32, .fieldAccess (.named "position")⟩,
           ⟨.get, tyBool, .reference none false tyBool, .fieldAccess (.named "velocity")⟩,
           ⟨.getMut, tyI32, .reference none true tyI32, .fieldAccess (.named "position")⟩ ]
         : List ImplDecl),
        d.capability = .getMut → d.body ≠ .fieldAccess (.named "velocity") := by
  have h := c1_query_ref_get_and_mut "Q" "a" "velocity"
    [("position", Ty.reference (some "a") true tyI32),
     ("velocity", Ty.reference (some "a") false tyBool)]
    (some "a") false tyBool
    [ ⟨.get, tyI32, .reference none false tyI32, .fieldAccess (.named "position")⟩,
      ⟨.get, tyBool, .reference none false tyBool, .fieldAccess (.named "velocity")⟩,
      ⟨.getMut, tyI32, .reference none true tyI32, .fieldAccess (.named "position")⟩ ]
    (by simp) (by rfl)
  exact ⟨h.1, h.2.2 rfl (by decide)⟩

/-- C2: for every Query-kind struct descriptor, a field whose type is an
optional-wrapped borrowed reference to T (an Option of a reference)
always yields a get-optional implementation targeting T, and yields a
get-optional-mutable implementation targeting T exactly when the
wrapped reference was declared mutable. -/
theorem c2_query_option_get_and_mut (n lt fname : String) (fs : List (String × Ty))
    (rlt : Option String) (mu : Bool) (T : Ty) (out : List ImplDecl)
    (hmem : (fname, optionOf rlt mu T) ∈ fs)
    (hout : derive (queryInput n lt fs) = .ok out) :
    (⟨.getOptional, T, optionOf none false T, .fieldAccess (.named fname)⟩ : ImplDecl) ∈ out
    ∧ (mu = true →
        (⟨.getOptionalMut, T, optionOf none true T, .fieldAccess (.named fname)⟩ : ImplDecl)
          ∈ out)
    ∧ (mu = false → (fs.map Prod.fst).Nodup →
        ∀ d ∈ out, d.capability = .getOptionalMut → d.body ≠ .fieldAccess (.named fname)) := by
  rw [derive_query] at hout
  have hout2 : out = refsQList fs ++ mutsQList fs ++ optQList fs ++ optMutQList fs :=
    (Except.ok.inj hout).symm
  subst hout2
  refine ⟨?_, ?_, ?_⟩
  · have hm : (⟨.getOptional, T, optionOf none false T, .fieldAccess (.named fname)⟩ : ImplDecl)
        ∈ optQList fs := by
      rw [mem_optQList]
      refine ⟨(fname, optionOf rlt mu T), hmem, T, ?_, ?_⟩
      · simp [optionOf, extract_option_type, extract_ref_type]
      · simp [optionOf, remove_type_lifetime, remove_type_mutability, ty_remove_mut,
          ty_remove_lt, segs_remove_mut, segs_remove_lt, pathargs_remove_mut,
          pathargs_remove_lt, args_remove_mut, args_remove_lt, arg_remove_mut, arg_remove_lt]
    simp [hm]
  · intro hmu
    subst hmu
    have hm : (⟨.getOptionalMut, T, optionOf none true T, .fieldAccess (.named fname)⟩ : ImplDecl)
        ∈ optMutQList fs := by
      rw [mem_optMutQList]
      refine ⟨(fname, optionOf rlt true T), hmem, ?_, T, ?_, ?_⟩
      · simp [optionOf, is_mutable_type_ref, ty_has_mut_ref, segs_has_mut_ref,
          pathargs_has_mut_ref, args_has_mut_ref, arg_has_mut_ref]
      · simp [optionOf, extract_option_type, extract_ref_type]
      · simp [optionOf, remove_type_lifetime, ty_remove_lt, segs_remove_lt,
          pathargs_remove_lt, args_remove_lt, arg_remove_lt]
    simp [hm]
  · intro hmu hnd d hd hcap hbody
    subst hmu
    rcases List.mem_append.mp hd with hd1 | hoptm
    · rcases List.mem_append.mp hd1 with hd2 | hopt
      · rcases List.mem_append.mp hd2 with href | hmut
        · rcases (mem_refsQList fs d).mp href with ⟨f, _, p, _, rfl⟩
          simp at hcap
        · rcases (mem_mutsQList fs d).mp hmut with ⟨f, _, _, p, _, rfl⟩
          simp at hcap
      · rcases (mem_optQList fs d).mp hopt with ⟨f, _, p, _, rfl⟩
        simp at hcap
    · rcases (mem_optMutQList fs d).mp hoptm with ⟨f, hf, hfmu, p, hext, rfl⟩
      simp only [Body.fieldAccess.injEq, Member.named.injEq] at hbody
      have hkey : f = (f.1, f.2) := rfl
      rw [hkey, hbody] at hf
      have hty : f.2 = optionOf rlt false T :=
        keys_nodup_unique_val fs hnd hf hmem
      rw [hty] at hfmu
      simp [optionOf, is_mutable_type_ref, ty_has_mut_ref, segs_has_mut_ref,
        pathargs_has_mut_ref, args_has_mut_ref, arg_has_mut_ref] at hfmu

/-- Witness for C2 at a concrete Query struct with a mutable and a
non-mutable optional reference field. -/
theorem c2_query_option_get_and_mut_witness :
    (⟨.getOptional, tyBool, optionOf none false tyBool,
        .fieldAccess (.named "boolean")⟩ : ImplDecl)
      ∈ ([ ⟨.getOptional, tyBool, optionOf none false tyBool,
             .fieldAccess (.named "boolean")⟩,
           ⟨.getOptional, tyMyComponent, optionOf none false tyMyComponent,
             .fieldAccess (.named "component")⟩,
           ⟨.getOptionalMut, tyMyComponent, optionOf none true tyMyComponent,
             .fieldAccess (.named "component")⟩ ] : List ImplDecl)
    ∧ ∀ d ∈ ([ ⟨.getOptional, tyBool, optionOf none false tyBool,
             .fieldAccess (.named "boolean")⟩,
           ⟨.getOptional, tyMyComponent, optionOf none false tyMyComponent,
             .fieldAccess (.named "component")⟩,
           ⟨.getOptionalMut, tyMyComponent, optionOf none true tyMyComponent,
             .fieldAccess (.named "component")⟩ ] : List ImplDecl),
        d.capability = .getOptionalMut → d.body ≠ .fieldAccess (.named "boolean") := by
  have h := c2_query_option_get_and_mut "Q" "a" "boolean"
    [("boolean", optionOf (some "a") false tyBool),
     ("component", optionOf (some "a") true tyMyComponent)]
    (some "a") false tyBool
    [ ⟨.getOptional, tyBool, optionOf none false tyBool,
        .fieldAccess (.named "boolean")⟩,
      ⟨.getOptional, tyMyComponent, optionOf none false tyMyComponent,
        .fieldAccess (.named "component")⟩,
      ⟨.getOptionalMut, tyMyComponent, optionOf none true tyMyComponent,
        .fieldAccess (.named "component")⟩ ]
    (by simp) (by rfl)
  exact ⟨h.1, h.2.2 rfl (by decide)⟩

/-- Counterexample to C6 as stated: for the Query struct with the field
string of type reference-to-reference (the tested shape written
as a reference with lifetime a to a reference with lifetime a to str),
the return type of the emitted get accessor still carries lifetime a on
the inner reference, because remove_type_lifetime does not recurse past
the outermost reference. -/
theorem c6_counterexample :
    derive (queryInput "MyQuery" "a"
        [("string", Ty.reference (some "a") false (Ty.reference (some "a") false tyStr))])
      = .ok [ ⟨.get, Ty.reference (some "a") false tyStr,
              Ty.reference none false (Ty.reference (some "a") false tyStr),
              .fieldAccess (.named "string")⟩ ]
    ∧ ty_mentions_lt
        (Ty.reference none false (Ty.reference (some "a") false tyStr)) = true := by
  exact ⟨rfl, rfl⟩

/-- C6 amended: in Query-kind emission the return type is the field
type normalized only at its outermost reference layer (or at the
reference directly wrapped by Option): the lifetime of that reference is
removed, and its mutability is removed for get and get-optional while
get-mutable and get-optional-mutable keep it; annotations nested inside
the referent type are retained (so a signature can still carry a
lifetime coming from the original field type). -/
theorem c6_ret_types_outer_normalized (n lt : String) (fs : List (String × Ty))
    (out : List ImplDecl)
    (hout : derive (queryInput n lt fs) = .ok out) :
    (∀ fname rlt mu T, (fname, Ty.reference rlt mu T) ∈ fs →
      (⟨.get, T, .reference none false T, .fieldAccess (.named fname)⟩ : ImplDecl) ∈ out
      ∧ (mu = true →
          (⟨.getMut, T, .reference none true T, .fieldAccess (.named fname)⟩ : ImplDecl) ∈ out))
    ∧ (∀ fname rlt mu T, (fname, optionOf rlt mu T) ∈ fs →
      (⟨.getOptional, T, optionOf none false T, .fieldAccess (.named fname)⟩ : ImplDecl) ∈ out
      ∧ (mu = true →
          (⟨.getOptionalMut, T, optionOf none true T, .fieldAccess (.named fname)⟩ : ImplDecl)
            ∈ out)) := by
  rw [derive_query] at hout
  have hout2 : out = refsQList fs ++ mutsQList fs ++ optQList fs ++ optMutQList fs :=
    (Except.ok.inj hout).symm
  subst hout2
  constructor
  · intro fname rlt mu T hmem
    constructor
    · have hm : (⟨.get, T, .reference none false T, .fieldAccess (.named fname)⟩ : ImplDecl)
          ∈ refsQList fs := by
        rw [mem_refsQList]
        exact ⟨(fname, Ty.reference rlt mu T), hmem, T, rfl, by
          simp [remove_type_lifetime, remove_type_mutability, ty_remove_mut, ty_remove_lt]⟩
      simp [hm]
    · intro hmu
      subst hmu
      have hm : (⟨.getMut, T, .reference none true T, .fieldAccess (.named fname)⟩ : ImplDecl)
          ∈ mutsQList fs := by
        rw [mem_mutsQList]
        exact ⟨(fname, Ty.reference rlt true T), hmem, rfl, T, rfl, by
          simp [remove_type_lifetime, ty_remove_lt]⟩
      simp [hm]
  · intro fname rlt mu T hmem
    constructor
    · have hm : (⟨.getOptional, T, optionOf none false T,
            .fieldAccess (.named fname)⟩ : ImplDecl) ∈ optQList fs := by
        rw [mem_optQList]
        refine ⟨(fname, optionOf rlt mu T), hmem, T, ?_, ?_⟩
        · simp [optionOf, extract_option_type, extract_ref_type]
        · simp [optionOf, remove_type_lifetime, remove_type_mutability, ty_remove_mut,
            ty_remove_lt, segs_remove_mut, segs_remove_lt, pathargs_remove_mut,
            pathargs_remove_lt, args_remove_mut, args_remove_lt, arg_remove_mut,
            arg_remove_lt]
      simp [hm]
    · intro hmu
      subst hmu
      have hm : (⟨.getOptionalMut, T, optionOf none true T,
            .fieldAccess (.named fname)⟩ : ImplDecl) ∈ optMutQList fs := by
        rw [mem_optMutQList]
        refine ⟨(fname, optionOf rlt true T), hmem, ?_, T, ?_, ?_⟩
        · simp [optionOf, is_mutable_type_ref, ty_has_mut_ref, segs_has_mut_ref,
            pathargs_has_mut_ref, args_has_mut_ref, arg_has_mut_ref]
        · simp [optionOf, extract_option_type, extract_ref_type]
        · simp [optionOf, remove_type_lifetime, ty_remove_lt, segs_remove_lt,
            pathargs_remove_lt, args_remove_lt, arg_remove_lt]
      simp [hm]

/-- Witness for the amended C6 at a concrete Query struct. -/
theorem c6_ret_types_outer_normalized_witness :
    (⟨.get, tyI32, .reference none false tyI32,
        .fieldAccess (.named "integer")⟩ : ImplDecl)
      ∈ ([ ⟨.get, tyI32, .reference none false tyI32, .fieldAccess (.named "integer")⟩,
           ⟨.getMut, tyI32, .reference none true tyI32, .fieldAccess (.named "integer")⟩ ]
         : List ImplDecl)
    ∧ (⟨.getMut, tyI32, .reference none true tyI32,
        .fieldAccess (.named "integer")⟩ : ImplDecl)
      ∈ ([ ⟨.get, tyI32, .reference none false tyI32, .fieldAccess (.named "integer")⟩,
           ⟨.getMut, tyI32, .reference none true tyI32, .fieldAccess (.named "integer")⟩ ]
         : List ImplDecl) := by
  have h := c6_ret_types_outer_normalized "Q" "a"
    [("integer", Ty.reference (some "a") true tyI32)]
    [ ⟨.get, tyI32, .reference none false tyI32, .fieldAccess (.named "integer")⟩,
      ⟨.getMut, tyI32, .reference none true tyI32, .fieldAccess (.named "integer")⟩ ]
    (by rfl)
  have h1 := h.1 "integer" (some "a") true tyI32 (by simp)
  exact ⟨h1.1, h1.2 rfl⟩

/-- C10: a field is classified as optional-wrapped only when its type
is a path whose FIRST segment is the identifier Option with
angle-bracketed arguments whose first argument is a reference; the
fully qualified spelling starting with the segment std is not
recognized, and such a field is silently skipped (no accessors, no
error). -/
theorem c10_option_first_segment :
    (∀ t T, extract_option_type t = some T →
      ∃ rlt mu argTail segTail,
        t = Ty.path (.cons "Option"
              (.angle (.cons (.ty (.reference rlt mu T)) argTail)) segTail))
    ∧ (∀ rlt mu T, extract_option_type (stdOptionOf rlt mu T) = none)
    ∧ (∀ n l fname rlt mu T,
        derive (queryInput n l [(fname, stdOptionOf rlt mu T)]) = .ok []) := by
  refine ⟨?_, ?_, ?_⟩
  · intro t T h
    cases t with
    | reference a b c => simp [extract_option_type] at h
    | tuple ts => simp [extract_option_type] at h
    | path segs =>
      cases segs with
      | nil => simp [extract_option_type] at h
      | cons id pargs tail =>
        by_cases hid : id = "Option"
        · subst hid
          cases pargs with
          | noArgs => simp [extract_option_type] at h
          | angle args =>
            cases args with
            | nil => simp [extract_option_type] at h
            | cons a argTail =>
              cases a with
              | lt nm => simp [extract_option_type] at h
              | ty t' =>
                cases t' with
                | reference rlt rmu e =>
                  simp [extract_option_type, extract_ref_type] at h
                  subst h
                  exact ⟨rlt, rmu, argTail, tail, rfl⟩
                | path s2 => simp [extract_option_type, extract_ref_type] at h
                | tuple ts2 => simp [extract_option_type, extract_ref_type] at h
        · simp [extract_option_type, hid] at h
  · intro rlt mu T
    rfl
  · intro n l fname rlt mu T
    cases mu <;> rfl

/-- Witness for C10: the extraction succeeds only on the recognized
shape, applied at a concrete type. -/
theorem c10_option_first_segment_witness :
    (∃ rlt mu argTail segTail,
        optionOf (some "a") false tyBool
          = Ty.path (.cons "Option"
              (.angle (.cons (.ty (.reference rlt mu tyBool)) argTail)) segTail))
    ∧ extract_option_type (stdOptionOf (some "a") false tyBool) = none
    ∧ derive (queryInput "Q" "a" [("opt", stdOptionOf (some "a") false tyBool)]) = .ok [] := by
  refine ⟨?_, c10_option_first_segment.2.1 (some "a") false tyBool,
      c10_option_first_segment.2.2 "Q" "a" "opt" (some "a") false tyBool⟩
  exact c10_option_first_segment.1 (optionOf (some "a") false tyBool) tyBool (by rfl)

theorem decompose_bundle (n : String) (df : StructFields) :
    decompose_derive_input (bundleInput n df)
      = .ok { ident := n
              fields := (membersAndTypes df).1
              types := (membersAndTypes df).2
              ref_types := (membersAndTypes df).2.map extract_ref_type
              option_types := (membersAndTypes df).2.map extract_option_type
              struct_type := .Bundle } := by
  rcases hmt : membersAndTypes df with ⟨ms, ts⟩
  simp [decompose_derive_input, bundleInput, lifetimesOf, hmt]

theorem derive_refs_bundle (n : String) (df : StructFields) :
    derive_refs (bundleInput n df) = .ok (bundleGets df) := by
  simp only [derive_refs, decompose_bundle]
  rfl

theorem derive_muts_bundle (n : String) (df : StructFields) :
    derive_muts (bundleInput n df) = .ok (bundleMuts df) := by
  simp only [derive_muts, decompose_bundle]
  rfl

theorem derive_option_refs_bundle (n : String) (df : StructFields) :
    derive_option_refs (bundleInput n df) = .ok [] := by
  simp only [derive_option_refs, decompose_bundle]

theorem derive_option_muts_bundle (n : String) (df : StructFields) :
    derive_option_muts (bundleInput n df) = .ok [] := by
  simp only [derive_option_muts, decompose_bundle]

/-- C3: for every Bundle-kind struct descriptor the generator emits
exactly one get implementation returning a shared reference and one
get-mutable implementation returning a mutable reference per field,
each targeting the type of that field, and zero get-optional or
get-optional-mutable implementations. -/
theorem c3_bundle_streams (n : String) (df : StructFields) :
    derive (bundleInput n df) = .ok (bundleGets df ++ bundleMuts df)
    ∧ ∀ d ∈ bundleGets df ++ bundleMuts df,
        d.capability ≠ .getOptional ∧ d.capability ≠ .getOptionalMut := by
  constructor
  · simp [derive, derive_refs_bundle, derive_muts_bundle, derive_option_refs_bundle,
      derive_option_muts_bundle]
  · intro d hd
    rcases List.mem_append.mp hd with h | h
    · simp only [bundleGets] at h
      rcases List.mem_map.mp h with ⟨ft, _, rfl⟩
      exact ⟨by simp, by simp⟩
    · simp only [bundleMuts] at h
      rcases List.mem_map.mp h with ⟨ft, _, rfl⟩
      exact ⟨by simp, by simp⟩

/-- Witness for C3 at a concrete one-field Bundle struct. -/
theorem c3_bundle_streams_witness :
    derive (bundleInput "Entity" (.named [("position", tyI32)]))
      = .ok (bundleGets (.named [("position", tyI32)])
              ++ bundleMuts (.named [("position", tyI32)]))
    ∧ ((⟨.get, tyI32, .reference none false tyI32,
          .fieldAccess (.named "position")⟩ : ImplDecl).capability ≠ .getOptional) := by
  refine ⟨(c3_bundle_streams "Entity" (.named [("position", tyI32)])).1, ?_⟩
  refine ((c3_bundle_streams "Entity" (.named [("position", tyI32)])).2 _ ?_).1
  simp [bundleGets, membersAndTypes]

/-- C4: the ComponentProvider derive fails exactly when the input is
not a struct, has more than one lifetime parameter, or has a
non-lifetime generic parameter; on failure the entry point emits only
one diagnostic and zero accessor declarations; and a field whose type
matches no classification never causes failure and contributes no
emitted accessor. -/
theorem c4_error_conditions :
    (∀ input : DeriveInput, (derive input).isOk = true ↔ shapeOk input)
    ∧ (∀ input e, derive input = .error e →
        query_component_provider_derive input = [OutDecl.compileError e])
    ∧ (∀ n l fs fname t out, (fname, t) ∈ fs → extract_ref_type t = none →
        extract_option_type t = none → (fs.map Prod.fst).Nodup →
        derive (queryInput n l fs) = .ok out →
        ∀ d ∈ out, d.body ≠ .fieldAccess (.named fname)) := by
  refine ⟨?_, ?_, ?_⟩
  · intro input
    exact (derive_isOk_iff_decompose input).trans (decompose_isOk_iff input)
  · intro input e h
    simp [query_component_provider_derive, h]
  · intro n l fs fname t out hmem hradd hoadd hnd hout d hd hbody
    rw [derive_query] at hout
    have hout2 : out = refsQList fs ++ mutsQList fs ++ optQList fs ++ optMutQList fs :=
      (Except.ok.inj hout).symm
    subst hout2
    have key : ∀ f : String × Ty, f ∈ fs → f.1 = fname → f.2 = t := by
      intro f hf h1
      have hkey : f = (f.1, f.2) := rfl
      rw [hkey, h1] at hf
      exact keys_nodup_unique_val fs hnd hf hmem
    rcases List.mem_append.mp hd with hd1 | hoptm
    · rcases List.mem_append.mp hd1 with hd2 | hopt
      · rcases List.mem_append.mp hd2 with href | hmut
        · rcases (mem_refsQList fs d).mp href with ⟨f, hf, p, hext, rfl⟩
          simp only [Body.fieldAccess.injEq, Member.named.injEq] at hbody
          rw [key f hf hbody] at hext
          rw [hradd] at hext
          cases hext
        · rcases (mem_mutsQList fs d).mp hmut with ⟨f, hf, _, p, hext, rfl⟩
          simp only [Body.fieldAccess.injEq, Member.named.injEq] at hbody
          rw [key f hf hbody] at hext
          rw [hradd] at hext
          cases hext
      · rcases (mem_optQList fs d).mp hopt with ⟨f, hf, p, hext, rfl⟩
        simp only [Body.fieldAccess.injEq, Member.named.injEq] at hbody
        rw [key f hf hbody] at hext
        rw [hoadd] at hext
        cases hext
    · rcases (mem_optMutQList fs d).mp hoptm with ⟨f, hf, _, p, hext, rfl⟩
      simp only [Body.fieldAccess.injEq, Member.named.injEq] at hbody
      rw [key f hf hbody] at hext
      rw [hoadd] at hext
      cases hext

/-- Witness for C4: a non-struct input produces only the diagnostic,
and an unclassified Query field is skipped without error. -/
theorem c4_error_conditions_witness :
    query_component_provider_derive { ident := "E", generics := [], data := .enumData }
      = [OutDecl.compileError "derive(ComponentProvider) may only be applied to structs"]
    ∧ derive (queryInput "Q" "a" [("plain", tyI32)]) = .ok []
    ∧ ∀ d ∈ ([] : List ImplDecl), d.body ≠ .fieldAccess (.named "plain") := by
  refine ⟨c4_error_conditions.2.1 _ _ rfl, rfl, ?_⟩
  exact c4_error_conditions.2.2 "Q" "a" [("plain", tyI32)] "plain" tyI32 []
    (by simp) rfl rfl (by simp) rfl

/-- C7: the default_trait_impl generator returns the input trait
declaration unchanged plus exactly one blanket implementation for
every type satisfying the supertrait bounds of the trait, supplying no
methods; a trait with zero supertraits is accepted and yields a
blanket implementation with an empty bound list (every type). -/
theorem c7_default_trait_impl :
    (∀ t : DefaultTraitImpl.ItemTrait,
      DefaultTraitImpl.generate t
        = .ok { original := t
                implTraitName := t.ident
                implBounds := t.supertraits
                implMethods := [] })
    ∧ (∀ t : DefaultTraitImpl.ItemTrait, t.supertraits = [] →
        ∃ out, DefaultTraitImpl.generate t = .ok out ∧ out.implBounds = []) := by
  refine ⟨fun t => rfl, fun t h => ⟨_, rfl, ?_⟩⟩
  simp [h]

/-- Witness for C7 at a concrete supertrait-free trait. -/
theorem c7_default_trait_impl_witness :
    ∃ out, DefaultTraitImpl.generate { ident := "Tr", supertraits := [], items := ["m"] }
        = .ok out ∧ out.implBounds = [] :=
  c7_default_trait_impl.2 { ident := "Tr", supertraits := [], items := ["m"] } rfl

/-- C8: the SelfComponentProvider derive fails for any non-struct
input and for any input with a lifetime or other generic parameter;
an accepted struct X yields exactly one get implementation returning
a shared reference to X and one get-mutable implementation returning
a mutable reference to X, both targeting X itself and returning self. -/
theorem c8_self_provider :
    (∀ input : DeriveInput,
      (SelfComponentProvider.derive input).isOk = true
        ↔ (input.data.isStruct = true ∧ input.generics = []))
    ∧ (∀ n df, SelfComponentProvider.derive { ident := n, generics := [], data := .structData df }
        = .ok [ ⟨.get, Ty.path (.cons n .noArgs .nil),
                  .reference none false (Ty.path (.cons n .noArgs .nil)), .selfValue⟩,
                ⟨.getMut, Ty.path (.cons n .noArgs .nil),
                  .reference none true (Ty.path (.cons n .noArgs .nil)), .selfValue⟩ ]) := by
  constructor
  · intro input
    cases hd : input.data with
    | structData df =>
      cases hg : input.generics with
      | nil =>
        simp [SelfComponentProvider.derive, hd, hg, lifetimesOf, Except.isOk, Except.toBool,
          Data.isStruct]
      | cons g gs =>
        have hlen : input.generics.length > 0 := by rw [hg]; simp
        simp only [SelfComponentProvider.derive, hd]
        split
        · simp [Except.isOk, Except.toBool, hg, Data.isStruct, hd]
        · simp [Except.isOk, Except.toBool, hlen, hg, Data.isStruct, hd]
    | enumData =>
      simp [SelfComponentProvider.derive, hd, Except.isOk, Except.toBool, Data.isStruct]
    | unionData =>
      simp [SelfComponentProvider.derive, hd, Except.isOk, Except.toBool, Data.isStruct]
  · intro n df
    rfl

namespace TupleQuery

theorem toksWeight_append (a b : List Tok) :
    toksWeight (a ++ b) = toksWeight a + toksWeight b := by
  induction a with
  | nil => simp [toksWeight]
  | cons x xs ih => cases x <;> simp [toksWeight, ih] <;> omega

/-- One pass of the stack muncher over a marker-free sub-stream behaves
as the recursive spec rewrite appended to the current frame. -/
theorem munch_splice (w : Nat) :
    ∀ ts : List Tok, toksWeight ts ≤ w → markerFree ts = true →
      ∀ (top : List Tok) (stack : List (List Tok)) (rest : List Tok),
        munch (top :: stack) (ts ++ rest) = munch ((top ++ rewriteSpec ts) :: stack) rest := by
  induction w with
  | zero =>
    intro ts hw hmf top stack rest
    cases ts with
    | nil => simp [rewriteSpec]
    | cons t r =>
      exfalso
      cases t <;> simp [toksWeight] at hw
  | succ n ih =>
    intro ts hw hmf top stack rest
    cases ts with
    | nil => simp [rewriteSpec]
    | cons t r =>
      cases t with
      | amp =>
        have hr : toksWeight r ≤ n := by simp [toksWeight] at hw; omega
        have hmfr : markerFree r = true := by simpa [markerFree] using hmf
        rw [List.cons_append, munch, ih r hr hmfr]
        simp [rewriteSpec, List.append_assoc]
      | ampamp =>
        have hr : toksWeight r ≤ n := by simp [toksWeight] at hw; omega
        have hmfr : markerFree r = true := by simpa [markerFree] using hmf
        rw [List.cons_append, munch, ih r hr hmfr]
        simp [rewriteSpec, List.append_assoc]
      | lt nm =>
        have hr : toksWeight r ≤ n := by simp [toksWeight] at hw; omega
        have hmfr : markerFree r = true := by simpa [markerFree] using hmf
        rw [List.cons_append, munch, ih r hr hmfr]
        simp [rewriteSpec, List.append_assoc]
      | raw s =>
        have hr : toksWeight r ≤ n := by simp [toksWeight] at hw; omega
        have hmfr : markerFree r = true := by simpa [markerFree] using hmf
        rw [List.cons_append, munch, ih r hr hmfr]
        simp [rewriteSpec, List.append_assoc]
      | parenMarker =>
        exfalso
        simp [markerFree] at hmf
      | group g =>
        have hg : toksWeight g ≤ n := by simp [toksWeight] at hw; omega
        have hr : toksWeight r ≤ n := by simp [toksWeight] at hw; omega
        have hmf2 : markerFree g = true ∧ markerFree r = true := by
          simpa [markerFree, Bool.and_eq_true] using hmf
        rw [List.cons_append, munch, ih g hg hmf2.1]
        simp only [List.nil_append]
        rw [munch, ih r hr hmf2.2]
        simp [rewriteSpec, List.append_assoc]

/-- The muncher started on one group reduces to that group rewritten. -/
theorem munch_single_group (ts : List Tok) (hmf : markerFree ts = true) :
    munch [[]] [Tok.group ts] = some [Tok.group (rewriteSpec ts)] := by
  have h0 : munch [[]] [Tok.group ts]
      = munch ([] :: [[]]) (ts ++ Tok.parenMarker :: []) := by
    rw [munch]
  rw [h0, munch_splice (toksWeight ts) ts le_rfl hmf]
  simp only [List.nil_append]
  rw [munch]
  simp only [List.nil_append]
  rw [munch]
  simp

end TupleQuery

/-- C5: the tuple-query expansion rewrites the parenthesized input by
replacing every lone reference token with a lifetime-annotated one and
every doubled reference token with two, passing other tokens through
and recursing into nested groups (the stack muncher agrees with the
recursive rewrite); it then names a fresh one-lifetime-parameter tuple
struct with the rewritten elements as its unnamed fields in order,
applies hecs::Query and the ComponentProvider derive to it, and binds
the caller-supplied alias to it; distinct gensym invocations yield
distinct struct names. -/
theorem c5_tuple_query_expansion :
    (∀ (aliasId : String) (ts : List TupleQuery.Tok) (g : TupleQuery.GenIdent),
      TupleQuery.markerFree ts = true →
      TupleQuery.expand aliasId [TupleQuery.Tok.group ts] g
        = some { structName := g
                 structLifetime := "a"
                 fieldToks := TupleQuery.rewriteSpec ts
                 derives := ["hecs::Query", "ComponentProvider"]
                 aliasName := aliasId
                 aliasTarget := g })
    ∧ Function.Injective TupleQuery.gensym := by
  constructor
  · intro aliasId ts g hmf
    simp [TupleQuery.expand, TupleQuery.munch_single_group ts hmf]
  · intro a b h
    simpa [TupleQuery.gensym, TupleQuery.GenIdent.mk.injEq] using h

/-- Witness for C5 at the tuple from the test suite, with a reference,
a doubled reference, a plain token and a nested group. -/
theorem c5_tuple_query_expansion_witness :
    TupleQuery.expand "MyQuery"
        [TupleQuery.Tok.group
          [TupleQuery.Tok.amp, TupleQuery.Tok.raw "mut", TupleQuery.Tok.raw "i32",
           TupleQuery.Tok.raw ",", TupleQuery.Tok.ampamp, TupleQuery.Tok.raw "str",
           TupleQuery.Tok.raw ",",
           TupleQuery.Tok.group [TupleQuery.Tok.amp, TupleQuery.Tok.raw "bool"]]]
        (TupleQuery.gensym 3)
      = some { structName := TupleQuery.gensym 3
               structLifetime := "a"
               fieldToks :=
                 [TupleQuery.Tok.amp, TupleQuery.Tok.lt "a", TupleQuery.Tok.raw "mut",
                  TupleQuery.Tok.raw "i32", TupleQuery.Tok.raw ",",
                  TupleQuery.Tok.amp, TupleQuery.Tok.lt "a", TupleQuery.Tok.amp,
                  TupleQuery.Tok.lt "a", TupleQuery.Tok.raw "str", TupleQuery.Tok.raw ",",
                  TupleQuery.Tok.group
                    [TupleQuery.Tok.amp, TupleQuery.Tok.lt "a", TupleQuery.Tok.raw "bool"]]
               derives := ["hecs::Query", "ComponentProvider"]
               aliasName := "MyQuery"
               aliasTarget := TupleQuery.gensym 3 } := by
  have h := c5_tuple_query_expansion.1 "MyQuery"
    [TupleQuery.Tok.amp, TupleQuery.Tok.raw "mut", TupleQuery.Tok.raw "i32",
     TupleQuery.Tok.raw ",", TupleQuery.Tok.ampamp, TupleQuery.Tok.raw "str",
     TupleQuery.Tok.raw ",",
     TupleQuery.Tok.group [TupleQuery.Tok.amp, TupleQuery.Tok.raw "bool"]]
    (TupleQuery.gensym 3) (by simp [TupleQuery.markerFree])
  rw [h]
  simp [TupleQuery.rewriteSpec]

/-- Counterexample to C9 as stated: the rewrite does NOT reject the
empty tuple; the expansion of the empty parenthesized input succeeds
at the token level, producing a struct with zero fields (the usage
error only arises downstream, because the generated struct declares a
lifetime parameter that no field uses). -/
theorem c9_counterexample :
    TupleQuery.expand "Q" [TupleQuery.Tok.group []] (TupleQuery.gensym 0)
      = some { structName := TupleQuery.gensym 0
               structLifetime := "a"
               fieldToks := []
               derives := ["hecs::Query", "ComponentProvider"]
               aliasName := "Q"
               aliasTarget := TupleQuery.gensym 0 } := by
  simp [TupleQuery.expand, TupleQuery.munch]

/-- C9 amended: the expansion accepts the empty tuple and emits a
zero-field struct that still declares the single lifetime parameter;
since the field list is empty, no field token mentions that lifetime,
so the emitted declarations are invalid for the host compiler and the
empty tuple remains a usage error, though it is not rejected by the
rewrite itself. -/
theorem c9_empty_tuple_expansion (aliasId : String) (g : TupleQuery.GenIdent) :
    TupleQuery.expand aliasId [TupleQuery.Tok.group []] g
      = some { structName := g
               structLifetime := "a"
               fieldToks := []
               derives := ["hecs::Query", "ComponentProvider"]
               aliasName := aliasId
               aliasTarget := g } := by
  simp [TupleQuery.expand, TupleQuery.munch]
